import Mathlib

/-!
Verification of the core of `tools/gen_command_tree.py` (OpenAPI-to-command-tree
compiler).  The Python source is shallowly embedded: JSON documents become the
inductive type `Json`, Python dict/`or`/truthiness idioms become explicit
helper functions, and every place the Python code can raise becomes an
`Except String` computation.  Machine-level details that the claims do not
depend on (floating point numbers, I/O, argument parsing) are out of scope;
JSON numbers are modelled as integers.
-/

/-- ASCII upper-case letter, the regex class `[A-Z]`. -/
def isUpperA (c : Char) : Bool := 65 ≤ c.toNat && c.toNat ≤ 90

/-- ASCII lower-case letter, the regex class `[a-z]`. -/
def isLowerA (c : Char) : Bool := 97 ≤ c.toNat && c.toNat ≤ 122

/-- ASCII lower-case letter or digit, the regex class `[a-z0-9]`. -/
def isLowerDigitA (c : Char) : Bool :=
  isLowerA c || (48 ≤ c.toNat && c.toNat ≤ 57)

/-- ASCII lower-casing of one character; embeds what Python `str.lower`
does on the characters relevant here (the `[A-Z]` range). -/
def lowerChar (c : Char) : Char :=
  if isUpperA c then Char.ofNat (c.toNat + 32) else c

/-- The JSON data model produced by `json.load`.  Numbers are modelled as
integers; `null` is Python `None`. -/
inductive Json where
  | null : Json
  | bool : Bool → Json
  | num : Int → Json
  | str : String → Json
  | arr : List Json → Json
  | obj : List (String × Json) → Json

/-- First-match association-list lookup: Python dict indexing (JSON objects
have unique keys, so first match is the match). -/
def lookupField : List (String × Json) → String → Option Json
  | [], _ => none
  | (k, v) :: t, k0 => if k = k0 then some v else lookupField t k0

/-- Python truthiness of a JSON value (`bool(x)`). -/
def truthy : Json → Bool
  | Json.null => false
  | Json.bool b => b
  | Json.num n => n != 0
  | Json.str s => s != ""
  | Json.arr xs => !xs.isEmpty
  | Json.obj fs => !fs.isEmpty

/-- `d.get(k)` on an object, `none` elsewhere (callers that must fail on
non-objects use `dictGet`). -/
def jget : Json → String → Option Json
  | Json.obj fs, k => lookupField fs k
  | _, _ => none

/-- Python `d.get(k)`: `AttributeError` when `d` is not a dict. -/
def dictGet : Json → String → Except String (Option Json)
  | Json.obj fs, k => Except.ok (lookupField fs k)
  | _, _ => Except.error ("AttributeError: get")

/-- Python `d[k]` with a string key: `KeyError` when missing,
`TypeError` when `d` is not a dict. -/
def jindex (j : Json) (k : String) : Except String Json :=
  match j with
  | Json.obj fs =>
      match lookupField fs k with
      | some v => Except.ok v
      | none => Except.error ("KeyError: " ++ k)
  | _ => Except.error ("TypeError: subscript")

/-- Python `x == "lit"` for JSON values (only string values compare equal). -/
def beqStrJ : Json → String → Bool
  | Json.str s, t => s == t
  | _, _ => false

/-- `pat` starts `s` (character-wise). -/
def startsSeq : List Char → List Char → Bool
  | [], _ => true
  | _ :: _, [] => false
  | a :: as, b :: bs => a == b && startsSeq as bs

/-- `pat` occurs as a contiguous run inside `s`. -/
def containsSeq (pat : List Char) : List Char → Bool
  | [] => startsSeq pat []
  | c :: t => startsSeq pat (c :: t) || containsSeq pat t

/-- Python `k in d` for the container shapes the source can reach: key test
on dicts, membership on lists, substring test on strings. -/
def keyIn (j : Json) (k : String) : Except String Bool :=
  match j with
  | Json.obj fs => Except.ok (lookupField fs k).isSome
  | Json.arr xs => Except.ok (xs.any (fun e => beqStrJ e k))
  | Json.str s => Except.ok (containsSeq k.data s.data)
  | _ => Except.error ("TypeError: not iterable")

/-- Python `opt or d` where `opt` came from a `.get`: `None` and falsy
values are replaced by the default. -/
def truthyOr (j : Option Json) (d : Json) : Json :=
  match j with
  | some v => if truthy v then v else d
  | none => d

/-- Python `v or d` on a value. -/
def truthyOrJ (v d : Json) : Json := if truthy v then v else d

/-- The value must be a string (Python would raise on a string method
otherwise). -/
def asStr : Json → Except String String
  | Json.str s => Except.ok s
  | _ => Except.error ("TypeError: not a string")

/-- The value must be a list (Python would raise on `+` / iteration
otherwise; iterating non-list iterables is not modelled). -/
def asArr : Json → Except String (List Json)
  | Json.arr xs => Except.ok xs
  | _ => Except.error ("TypeError: not a list")

/-! ## `to_kebab` (source lines 9-15)

The two `re.sub` calls are embedded as explicit left-to-right scanners with
the non-overlapping-match semantics of `re.sub` (after a match, scanning
resumes at the character following the match). -/

/-- Dropping a while-run never lengthens a list. -/
theorem dropWhileLenLe (p : Char → Bool) (l : List Char) :
    (l.dropWhile p).length ≤ l.length :=
  (List.dropWhile_suffix p).length_le

/-- `value.replace("_", "-")`. -/
def replaceUnd (l : List Char) : List Char :=
  l.map (fun c => if c == '_' then '-' else c)

/-- Head of the list is an ASCII lower-case letter. -/
def headIsLower : List Char → Bool
  | c :: _ => isLowerA c
  | [] => false

/-- `re.sub(r"(.)([A-Z][a-z]+)", r"\1-\2", value)`: a hyphen is inserted
between any character (other than a newline, which `.` does not match) and
an upper-case letter followed by at least one lower-case letter; the whole
greedy match is then skipped. -/
def sub2 : List Char → List Char
  | [] => []
  | [c] => [c]
  | c0 :: c1 :: t =>
    if c0 != '\n' && isUpperA c1 && headIsLower t then
      (c0 :: '-' :: c1 :: t.takeWhile isLowerA) ++ sub2 (t.dropWhile isLowerA)
    else
      c0 :: sub2 (c1 :: t)
termination_by l => l.length
decreasing_by
  · simp only [List.length_cons]
    have h := dropWhileLenLe isLowerA t
    omega
  · simp only [List.length_cons]
    omega

/-- `re.sub(r"([a-z0-9])([A-Z])", r"\1-\2", value)`. -/
def sub3 : List Char → List Char
  | [] => []
  | [c] => [c]
  | c0 :: c1 :: t =>
    if isLowerDigitA c0 && isUpperA c1 then c0 :: '-' :: c1 :: sub3 t
    else c0 :: sub3 (c1 :: t)

/-- `re.sub(r"-+", "-", value)`. -/
def collapseDashes : List Char → List Char
  | [] => []
  | c :: t =>
    if c == '-' then '-' :: collapseDashes (t.dropWhile (fun d => d == '-'))
    else c :: collapseDashes t
termination_by l => l.length
decreasing_by
  · simp only [List.length_cons]
    have h := dropWhileLenLe (fun d => d == '-') t
    omega
  · simp only [List.length_cons]
    omega

/-- Remove the maximal trailing run of hyphens. -/
def dropTrailingDashes : List Char → List Char
  | [] => []
  | c :: t =>
    match dropTrailingDashes t with
    | [] => if c == '-' then [] else [c]
    | r => c :: r

/-- `value.strip("-")`. -/
def stripDashes (l : List Char) : List Char :=
  dropTrailingDashes (l.dropWhile (fun d => d == '-'))

/-- `value.lower()` (on the ASCII range the claims exercise). -/
def lowerList (l : List Char) : List Char := l.map lowerChar

/-- `to_kebab` from the source, on character lists. -/
def to_kebab (l : List Char) : List Char :=
  lowerList (stripDashes (collapseDashes (sub3 (sub2 (replaceUnd l)))))

/-! ## `resolve_ref` (source lines 18-24) -/

/-- Python `str.split("/")` (splitting the empty string gives one empty
segment, as in Python). -/
def splitSlash : List Char → List (List Char)
  | [] => [[]]
  | c :: t =>
      if c == '/' then [] :: splitSlash t
      else
        match splitSlash t with
        | h :: r => (c :: h) :: r
        | [] => [[c]]

/-- `resolve_ref` from the source: only in-document references of the form
`#/seg/…/seg` are supported; the document is walked by successive key
lookups, any failure raising. -/
def resolve_ref (doc : Json) (ref : String) : Except String Json :=
  match ref.data with
  | '#' :: '/' :: rest =>
      (splitSlash rest).foldlM (fun cur part => jindex cur (String.mk part)) doc
  | _ => Except.error ("unsupported ref: " ++ ref)

/-! ## `schema_type` (source lines 40-49) -/

/-- One reference-resolution hop: `if "$ref" in schema: schema =
resolve_ref(doc, schema["$ref"])` (non-dict arguments raise in the source
as well, on the membership test or on the subsequent `.get`). -/
def hopRef (doc j : Json) : Except String Json :=
  match j with
  | Json.obj fs =>
      match lookupField fs "$ref" with
      | some (Json.str r) => resolve_ref doc r
      | some _ => Except.error ("TypeError: ref is not a string")
      | none => Except.ok j
  | _ => Except.error ("TypeError: not a dict")

/-- `schema_type` after the initial reference hop (source lines 43-49). -/
def schema_type_core (doc s : Json) : Except String (Json × Option Json) := do
  let tO ← dictGet s "type"
  let typ := truthyOr tO (Json.str "string")
  if !(beqStrJ typ "array") then Except.ok (typ, none)
  else do
    let iO ← dictGet s "items"
    let items0 := truthyOr iO (Json.obj [])
    let items ← hopRef doc items0
    let itO ← dictGet items "type"
    Except.ok (Json.str "array", some (truthyOr itO (Json.str "string")))

/-- `schema_type` from the source. -/
def schema_type (doc schema : Json) : Except String (Json × Option Json) := do
  let s ← hopRef doc schema
  schema_type_core doc s

/-! ## `parse_param` (source lines 52-64) and the parameter pipeline of
`main` (source lines 138-145) -/

/-- One emitted parameter record (`in` is a Lean keyword, hence `inLoc`). -/
structure Param where
  name : String
  flag : String
  inLoc : String
  required : Bool
  style : Json
  explode : Json
  schema_type : Json
  items_type : Option Json

/-- `parse_param` from the source. -/
def parse_param (doc p : Json) : Except String Param := do
  let sO ← dictGet p "schema"
  let schema := truthyOr sO (Json.obj [])
  let ti ← schema_type doc schema
  let nJ ← jindex p "name"
  let n ← asStr nJ
  let iJ ← jindex p "in"
  let iS ← asStr iJ
  let rO ← dictGet p "required"
  let stO ← dictGet p "style"
  let exO ← dictGet p "explode"
  Except.ok
    { name := n
      flag := String.mk (n.data.map (fun c => if c == '_' then '-' else c))
      inLoc := iS
      required := (match rO with | some v => truthy v | none => false)
      style := (match stO with | some v => v | none => Json.null)
      explode := (match exO with | some v => v | none => Json.null)
      schema_type := ti.1
      items_type := ti.2 }

/-- The per-entry step of the loop at source lines 139-142: one reference
hop where needed, then `parse_param`. -/
def resolveParseParam (doc p : Json) : Except String Param := do
  let hasR ← keyIn p "$ref"
  let p1 ←
    (if hasR then do
        let refJ ← jindex p "$ref"
        let rs ← asStr refJ
        resolve_ref doc rs
      else Except.ok p)
  parse_param doc p1

/-- Strict code-point comparison of character lists (Python string `<`). -/
def charListLt : List Char → List Char → Bool
  | [], [] => false
  | [], _ :: _ => true
  | _ :: _, [] => false
  | a :: as, b :: bs =>
      if a.toNat < b.toNat then true
      else if b.toNat < a.toNat then false
      else charListLt as bs

/-- Python string `<`. -/
def strLtB (a b : String) : Bool := charListLt a.data b.data

/-- Python `False < True`. -/
def boolLtB (a b : Bool) : Bool := !a && b

/-- Lexicographic cascade of two strict orders, the way Python compares
tuples: decide on the first component, fall through to the second only
when neither side is smaller. -/
def cascLt {α β : Type} (ltA : α → α → Bool) (ltB : β → β → Bool)
    (x y : α × β) : Bool :=
  if ltA x.1 y.1 then true
  else if ltA y.1 x.1 then false
  else ltB x.2 y.2

/-- Strict lexicographic comparison of the sort key
`(p["in"] != "path", p["in"], p["name"])` (Python tuple `<`). -/
def keyLtB (x y : Bool × String × String) : Bool :=
  cascLt boolLtB (cascLt strLtB strLtB) x y

/-- The sort key of source line 145. -/
def pkey (p : Param) : Bool × String × String := (p.inLoc != "path", p.inLoc, p.name)

/-- Non-strict key order: `p` may precede `q`. -/
def pLe (p q : Param) : Bool := !(keyLtB (pkey q) (pkey p))

/-- Stable insertion into a sorted list: the new element goes before the
first element it is `pLe` to, hence before later equal-key elements. -/
def pInsert (x : Param) : List Param → List Param
  | [] => [x]
  | y :: t => if pLe x y then x :: y :: t else y :: pInsert x t

/-- `params.sort(key=...)` of source line 145: Python list sort is a stable
ascending sort by key, embedded here as stable insertion sort (any two
stable sorts of the same list by the same key coincide). -/
def pSort (l : List Param) : List Param := l.foldr pInsert []

/-- The whole parameter pipeline of source lines 138-145 for one
(path item, operation) pair. -/
def build_params (doc pathItem op : Json) : Except String (List Param) := do
  let aO ← dictGet pathItem "parameters"
  let a ← asArr (truthyOr aO (Json.arr []))
  let bO ← dictGet op "parameters"
  let b ← asArr (truthyOr bO (Json.arr []))
  let parsed ← (a ++ b).mapM (resolveParseParam doc)
  Except.ok (pSort parsed)

/-! ## `pick_response_schema` (source lines 79-89) -/

/-- The body of one loop iteration after the falsy check: the
`application/json` schema of a response, `none` when absent or falsy
(source lines 85-88). -/
def respSchemaOf (resp : Json) : Except String (Option Json) := do
  let cO ← dictGet resp "content"
  let c1 := truthyOr cO (Json.obj [])
  let jO ← dictGet c1 "application/json"
  let content := truthyOr jO (Json.obj [])
  let sO ← dictGet content "schema"
  Except.ok
    (match sO with
     | some s => if truthy s then some s else none
     | none => none)

/-- The `for code in ("200", "201", "202")` loop of source lines 81-88. -/
def pickLoop (responses : Json) : List String → Except String (Option Json)
  | [] => Except.ok none
  | code :: rest => do
      let rO ← dictGet responses code
      let resp := (match rO with | some v => v | none => Json.null)
      if !(truthy resp) then pickLoop responses rest
      else do
        let sO ← respSchemaOf resp
        match sO with
        | some s => Except.ok (some s)
        | none => pickLoop responses rest

/-- `pick_response_schema` from the source (its `doc` argument is unused
there as well). -/
def pick_response_schema (doc op : Json) : Except String (Option Json) := do
  let rO ← dictGet op "responses"
  pickLoop (truthyOr rO (Json.obj [])) ["200", "201", "202"]

/-! ## `is_paginated` (source lines 92-102)

The source recurses without any cycle guard; a reference cycle loops
forever.  The embedding makes the recursion depth explicit with a fuel
argument: any terminating run of the source is reproduced with enough
fuel, and a cycle exhausts every fuel. -/

/-- `ref.endswith("/Paginated")`: suffix test on character lists. -/
def endsSeq (suf s : List Char) : Bool :=
  startsSeq suf (s.drop (s.length - suf.length))

/-- Python `any(...)` over a generator: left-to-right with short-circuit
on the first positive (later elements are then not evaluated, so their
errors are not raised). -/
def anyList (f : Json → Except String Bool) : List Json → Except String Bool
  | [] => Except.ok false
  | s :: rest => do
      let b ← f s
      if b then Except.ok true else anyList f rest

/-- `is_paginated` from the source, with explicit recursion fuel. -/
def is_paginated (doc : Json) : Nat → Option Json → Except String Bool
  | 0, _ => Except.error ("unsupported ref: reference cycle")
  | _ + 1, none => Except.ok false
  | fuel + 1, some schema =>
    if !(truthy schema) then Except.ok false
    else do
      let hasR ← keyIn schema "$ref"
      if hasR then do
        let refJ ← jindex schema "$ref"
        let r ← asStr refJ
        if endsSeq ("/Paginated").data r.data then Except.ok true
        else do
          let t ← resolve_ref doc r
          is_paginated doc fuel (some t)
      else do
        let hasA ← keyIn schema "allOf"
        if hasA then do
          let aO ← dictGet schema "allOf"
          let branches ← asArr (truthyOr aO (Json.arr []))
          anyList (fun s => is_paginated doc fuel (some s)) branches
        else Except.ok false

/-! ## `base_url` and `security` selection in `main`
(source lines 115-120 and 151-153) -/

/-- `(servers[0] or {}).get("url") or ""` for the first declared server. -/
def serverUrl (s0 : Json) : Except String Json :=
  match truthyOrJ s0 (Json.obj []) with
  | Json.obj fs => Except.ok (truthyOr (lookupField fs "url") (Json.str ""))
  | _ => Except.error ("AttributeError: get")

/-- The `base_url` computation of source lines 115-120. -/
def base_url_of (doc : Json) : Except String Json := do
  let sO ← dictGet doc "servers"
  let servers := truthyOr sO (Json.arr [])
  let b ←
    (if truthy servers then
        match servers with
        | Json.arr (s0 :: _) => serverUrl s0
        | Json.arr [] => Except.error ("IndexError")
        | _ => Except.error ("TypeError: subscript")
      else Except.ok (Json.str ""))
  Except.ok (if truthy b then b else Json.str "https://api.pinterest.com/v5")

/-- `global_security = doc.get("security") or []` (source line 122). -/
def global_security_of (doc : Json) : Except String Json := do
  let g ← dictGet doc "security"
  Except.ok (truthyOr g (Json.arr []))

/-- The `security` selection of source lines 151-153.  `json.load` maps a
JSON `null` field to Python `None`, so `op.get("security") is None` holds
both when the field is absent and when it is explicitly `null`. -/
def security_of (op globalSecurity : Json) : Except String Json := do
  let sO ← dictGet op "security"
  match sO with
  | none => Except.ok globalSecurity
  | some Json.null => Except.ok globalSecurity
  | some s => Except.ok s

/-! ## Operation-name disambiguation and sorting in `main`
(source lines 169-183) -/

/-- Point update of the `seen` counter dict (absent keys read as 0). -/
def bump (seen : String → Nat) (k : String) (v : Nat) : String → Nat :=
  fun x => if x = k then v else seen x

/-- The collision loop of source lines 173-180, tracking the `seen` dict:
a name seen before becomes `name-(count+1)`; produced names are not
entered into `seen`. -/
def disambAux (seen : String → Nat) : List String → List String
  | [] => []
  | b :: rest =>
      if seen b = 0 then b :: disambAux (bump seen b 1) rest
      else (b ++ "-" ++ toString (seen b + 1)) :: disambAux (bump seen b (seen b + 1)) rest

/-- Operation-name disambiguation over one resource group, in traversal
order (the op records are projected to their names, which is all lines
173-180 read and write). -/
def disambiguate (ns : List String) : List String := disambAux (fun _ => 0) ns

/-- Number of occurrences of `b` in a list of names. -/
def countS (b : String) : List String → Nat
  | [] => 0
  | x :: t => (if x = b then 1 else 0) + countS b t

/-- Modelled from the claim wording: each operation keeps its name on the
first occurrence and receives the suffix `-k` on its `k`-th occurrence
(`k ≥ 2`), counting occurrences of the original name in encounter order. -/
def specDisamb : List String → List String → List String
  | _, [] => []
  | pre, b :: rest =>
      (if countS b pre = 0 then b else b ++ "-" ++ toString (countS b pre + 1)) ::
        specDisamb (pre ++ [b]) rest

/-- Non-strict Python string order. -/
def strLeB (a b : String) : Bool := !(strLtB b a)

/-- Stable insertion for the name sort. -/
def sInsert (x : String) : List String → List String
  | [] => [x]
  | y :: t => if strLeB x y then x :: y :: t else y :: sInsert x t

/-- `ops.sort(key=lambda o: o["name"])` of source line 182, projected to
names: a stable ascending sort. -/
def sortStrings (l : List String) : List String := l.foldr sInsert []

/-- Lines 173-182 for one resource: disambiguate in traversal order, then
sort alphabetically. -/
def finalizeOps (opNames : List String) : List String :=
  sortStrings (disambiguate opNames)

/-- A JSON value is the `null` literal. -/
def isNullJ : Json → Bool
  | Json.null => true
  | _ => false

/-- The reference string is in local pointer form, i.e. begins with the
two characters of the in-document marker. -/
def startsHS (r : String) : Bool :=
  match r.data with
  | '#' :: '/' :: _ => true
  | _ => false

/-- No ASCII upper-case letter occurs (the output alphabet of `lower`). -/
def noUpper (l : List Char) : Bool := l.all (fun c => !(isUpperA c))

/-- No underscore occurs. -/
def noUnder (l : List Char) : Bool := l.all (fun c => c != '_')

/-- No two adjacent hyphens occur. -/
def noDouble : List Char → Bool
  | a :: b :: t => (!(a == '-' && b == '-')) && noDouble (b :: t)
  | _ => true

/-- The first character, if any, is not a hyphen. -/
def headNotDash : List Char → Bool
  | [] => true
  | c :: _ => c != '-'

/-- The last character, if any, is not a hyphen. -/
def lastNotDash : List Char → Bool
  | [] => true
  | [c] => c != '-'
  | _ :: t => lastNotDash t

/-! ## Theorems -/

theorem countS_append (b : String) (l1 l2 : List String) :
    countS b (l1 ++ l2) = countS b l1 + countS b l2 := by
  induction l1 with
  | nil => simp [countS]
  | cons x t ih => simp [countS, ih]; omega

theorem exceptBind_ok {α β : Type} (a : α) (f : α → Except String β) :
    (Except.ok a >>= f) = f a := rfl

theorem exceptBind_err {α β : Type} (e : String) (f : α → Except String β) :
    ((Except.error e : Except String α) >>= f) = Except.error e := rfl

theorem exceptBind_eq_ok {α β : Type} {x : Except String α}
    {f : α → Except String β} {b : β} :
    (x >>= f) = Except.ok b ↔ ∃ a, x = Except.ok a ∧ f a = Except.ok b := by
  cases x <;> simp [exceptBind_ok, exceptBind_err]

theorem disambAux_eq_specDisamb (ns : List String) :
    ∀ (pre : List String) (seen : String → Nat),
      (∀ b, seen b = countS b pre) → disambAux seen ns = specDisamb pre ns := by
  induction ns with
  | nil => intro pre seen _; rfl
  | cons b rest ih =>
    intro pre seen h
    have hb := h b
    simp only [disambAux, specDisamb]
    by_cases hc : countS b pre = 0
    · rw [if_pos (hb.trans hc), if_pos hc]
      refine congrArg _ (ih (pre ++ [b]) _ ?_)
      intro x
      have hx0 := h x
      rw [countS_append, bump]
      by_cases hx : x = b
      · subst hx
        simp only [if_pos rfl, countS]
        try simp
        try omega
      · simp only [if_neg hx, countS, if_neg (Ne.symm hx)]
        omega
    · rw [if_neg (fun h0 => hc (hb.symm.trans h0)), if_neg hc, hb]
      refine congrArg _ (ih (pre ++ [b]) _ ?_)
      intro x
      have hx0 := h x
      rw [countS_append, bump]
      by_cases hx : x = b
      · subst hx
        simp only [if_pos rfl, countS]
        try simp
        try omega
      · simp only [if_neg hx, countS, if_neg (Ne.symm hx)]
        omega

/-- C4: for every resource group, collision suffixes `-2`, `-3`, … are
assigned by occurrence count of the original name in the document's
traversal (encounter) order, before the alphabetical sort; in particular
two operations both named `list`, encountered A then B, end up `list` and
`list-2`. -/
theorem disambiguate_encounter_order :
    (∀ ns : List String, disambiguate ns = specDisamb [] ns) ∧
      finalizeOps ["list", "list"] = ["list", "list-2"] := by
  constructor
  · intro ns
    exact disambAux_eq_specDisamb ns [] (fun _ => 0) (fun b => rfl)
  · decide

/-- C1: the disambiguation step does not in fact guarantee uniqueness when
an original name collides with a produced suffixed name: a resource whose
operations are originally named `list`, `list`, `list-2` (in traversal
order) is emitted with the duplicate name `list-2`, contradicting the
uniqueness invariant (and the comment at source line 172). -/
theorem finalizeOps_duplicate_collision :
    finalizeOps ["list", "list", "list-2"] = ["list", "list-2", "list-2"] ∧
      ¬ (finalizeOps ["list", "list", "list-2"]).Nodup := by
  decide

/-- C5 (counterexample): an operation whose `security` field is explicitly
present with value `null` still receives the document's global security
list, so `security` equals the global list in a case where the field is
not absent. -/
theorem security_of_null_field :
    security_of (Json.obj [("security", Json.null)]) (Json.arr [Json.str "g"]) =
        Except.ok (Json.arr [Json.str "g"]) ∧
      dictGet (Json.obj [("security", Json.null)]) "security" =
        Except.ok (some Json.null) :=
  ⟨rfl, rfl⟩

/-- C5 (amended): an assembled operation's `security` equals its own
`security` value whenever that field is present with a non-`null` value —
including the explicit empty list, which yields `security = []` — and
equals the document's global security list exactly when the field is
absent or explicitly `null`. -/
theorem security_of_explicit_vs_absent (op glob : Json) :
    (dictGet op "security" = Except.ok none → security_of op glob = Except.ok glob) ∧
      (dictGet op "security" = Except.ok (some Json.null) →
        security_of op glob = Except.ok glob) ∧
      (∀ s, dictGet op "security" = Except.ok (some s) → isNullJ s = false →
        security_of op glob = Except.ok s) := by
  refine ⟨?_, ?_, ?_⟩
  · intro h; simp [security_of, h, exceptBind_ok]
  · intro h; simp [security_of, h, exceptBind_ok]
  · intro s h hn
    cases s <;> simp_all [security_of, isNullJ, exceptBind_ok]

theorem security_of_cases_witness :
    security_of (Json.obj []) (Json.arr [Json.str "g"]) =
        Except.ok (Json.arr [Json.str "g"]) ∧
      security_of (Json.obj [("security", Json.arr [])]) (Json.arr [Json.str "g"]) =
        Except.ok (Json.arr []) :=
  ⟨(security_of_explicit_vs_absent (Json.obj []) (Json.arr [Json.str "g"])).1 rfl,
    (security_of_explicit_vs_absent (Json.obj [("security", Json.arr [])])
        (Json.arr [Json.str "g"])).2.2 (Json.arr []) rfl rfl⟩

/-- C2 (counterexample): a document that declares one server whose `url`
field is absent still gets the hardcoded default `base_url`, although a
server is declared. -/
theorem base_url_empty_server_default :
    base_url_of (Json.obj [("servers", Json.arr [Json.obj []])]) =
        Except.ok (Json.str "https://api.pinterest.com/v5") ∧
      jget (Json.obj [("servers", Json.arr [Json.obj []])]) "servers" =
        some (Json.arr [Json.obj []]) :=
  ⟨rfl, rfl⟩

theorem truthy_arr_cons (x : Json) (xs : List Json) :
    truthy (Json.arr (x :: xs)) = true := rfl

theorem truthy_str_empty : truthy (Json.str "") = false := rfl

/-- C2 (amended): `base_url` equals the first declared server's `url` when
that value is truthy (non-empty), and equals the hardcoded default literal
when no servers are declared or when the first server's `url` is absent,
empty or otherwise falsy. -/
theorem base_url_selection (doc : Json) :
    (∀ sO, dictGet doc "servers" = Except.ok sO →
      truthy (truthyOr sO (Json.arr [])) = false →
      base_url_of doc = Except.ok (Json.str "https://api.pinterest.com/v5")) ∧
    (∀ sO s0 rest u, dictGet doc "servers" = Except.ok sO →
      truthyOr sO (Json.arr []) = Json.arr (s0 :: rest) →
      serverUrl s0 = Except.ok u → truthy u = true →
      base_url_of doc = Except.ok u) ∧
    (∀ sO s0 rest u, dictGet doc "servers" = Except.ok sO →
      truthyOr sO (Json.arr []) = Json.arr (s0 :: rest) →
      serverUrl s0 = Except.ok u → truthy u = false →
      base_url_of doc = Except.ok (Json.str "https://api.pinterest.com/v5")) := by
  refine ⟨?_, ?_, ?_⟩
  · intro sO h1 h2
    simp [base_url_of, h1, exceptBind_ok, h2, truthy_str_empty]
  · intro sO s0 rest u h1 h2 h3 h4
    simp [base_url_of, h1, exceptBind_ok, h2, h3, h4, truthy_arr_cons]
  · intro sO s0 rest u h1 h2 h3 h4
    simp [base_url_of, h1, exceptBind_ok, h2, h3, h4, truthy_arr_cons]

theorem base_url_selection_witness :
    base_url_of (Json.obj []) = Except.ok (Json.str "https://api.pinterest.com/v5") ∧
      base_url_of (Json.obj [("servers",
          Json.arr [Json.obj [("url", Json.str "https://api.example.com")]])]) =
        Except.ok (Json.str "https://api.example.com") ∧
      base_url_of (Json.obj [("servers", Json.arr [Json.obj [("url", Json.str "")]])]) =
        Except.ok (Json.str "https://api.pinterest.com/v5") :=
  ⟨(base_url_selection (Json.obj [])).1 none rfl rfl,
    (base_url_selection _).2.1 (some (Json.arr [Json.obj
        [("url", Json.str "https://api.example.com")]]))
      (Json.obj [("url", Json.str "https://api.example.com")]) []
      (Json.str "https://api.example.com") rfl rfl rfl rfl,
    (base_url_selection _).2.2 (some (Json.arr [Json.obj [("url", Json.str "")]]))
      (Json.obj [("url", Json.str "")]) [] (Json.str "") rfl rfl rfl rfl⟩

/-- C3 (counterexample): when code 200 is present but carries no
`application/json` schema, selection falls through and returns the schema
of code 201 — it does not stop at the first present code. -/
theorem pick_response_schema_falls_through :
    pick_response_schema Json.null
        (Json.obj [("responses", Json.obj
          [("200", Json.obj [("description", Json.str "ok")]),
           ("201", Json.obj [("content", Json.obj
              [("application/json", Json.obj
                [("schema", Json.obj [("x", Json.str "y")])])])])])]) =
        Except.ok (some (Json.obj [("x", Json.str "y")])) ∧
      respSchemaOf (Json.obj [("description", Json.str "ok")]) = Except.ok none :=
  ⟨rfl, rfl⟩

/-- C3 (amended): response-schema selection examines the codes `200`,
`201`, `202` in strict priority order and returns the `application/json`
schema of the first code whose response is present, truthy, and carries a
truthy `application/json` schema; a code that is absent, falsy, or without
such a schema is skipped in favour of the later codes; when no code
qualifies, no schema is selected. -/
theorem pick_response_schema_first_truthy :
    (∀ responses, pickLoop responses [] = Except.ok none) ∧
    (∀ responses code rest, dictGet responses code = Except.ok none →
      pickLoop responses (code :: rest) = pickLoop responses rest) ∧
    (∀ responses code rest r, dictGet responses code = Except.ok (some r) →
      truthy r = false →
      pickLoop responses (code :: rest) = pickLoop responses rest) ∧
    (∀ responses code rest r s, dictGet responses code = Except.ok (some r) →
      truthy r = true → respSchemaOf r = Except.ok (some s) →
      pickLoop responses (code :: rest) = Except.ok (some s)) ∧
    (∀ responses code rest r, dictGet responses code = Except.ok (some r) →
      truthy r = true → respSchemaOf r = Except.ok none →
      pickLoop responses (code :: rest) = pickLoop responses rest) ∧
    (∀ doc op rsO, dictGet op "responses" = Except.ok rsO →
      pick_response_schema doc op =
        pickLoop (truthyOr rsO (Json.obj [])) ["200", "201", "202"]) := by
  refine ⟨?_, ?_, ?_, ?_, ?_, ?_⟩
  · intro responses; rfl
  · intro responses code rest h
    simp [pickLoop, h, exceptBind_ok, truthy]
  · intro responses code rest r h ht
    simp [pickLoop, h, exceptBind_ok, ht]
  · intro responses code rest r s h ht hs
    simp [pickLoop, h, exceptBind_ok, ht, hs]
  · intro responses code rest r h ht hs
    simp [pickLoop, h, exceptBind_ok, ht, hs]
  · intro doc op rsO h
    simp [pick_response_schema, h, exceptBind_ok]

theorem pick_response_schema_first_truthy_witness :
    pickLoop (Json.obj []) [] = Except.ok none ∧
      pickLoop (Json.obj []) ["200"] = pickLoop (Json.obj []) [] ∧
      pickLoop (Json.obj [("200", Json.obj [("content", Json.obj
          [("application/json", Json.obj
            [("schema", Json.obj [("s", Json.num 1)])])])])]) ["200"] =
        Except.ok (some (Json.obj [("s", Json.num 1)])) ∧
      pickLoop (Json.obj [("200", Json.obj [("description", Json.str "d")])])
          ["200", "201"] =
        pickLoop (Json.obj [("200", Json.obj [("description", Json.str "d")])]) ["201"] ∧
      pick_response_schema Json.null (Json.obj []) =
        pickLoop (Json.obj []) ["200", "201", "202"] :=
  ⟨pick_response_schema_first_truthy.1 (Json.obj []),
    pick_response_schema_first_truthy.2.1 (Json.obj []) "200" [] rfl,
    pick_response_schema_first_truthy.2.2.2.1 _ "200" []
      (Json.obj [("content", Json.obj [("application/json", Json.obj
        [("schema", Json.obj [("s", Json.num 1)])])])])
      (Json.obj [("s", Json.num 1)]) rfl rfl rfl,
    pick_response_schema_first_truthy.2.2.2.2.1 _ "200" ["201"]
      (Json.obj [("description", Json.str "d")]) rfl rfl rfl,
    pick_response_schema_first_truthy.2.2.2.2.2 Json.null (Json.obj []) none rfl⟩

/-- C9: the reference resolver rejects every reference that is not in
local pointer form with an error (it never returns a value), and on local
references it walks the document from the root by successive key lookups
over the `/`-separated segments; the embedding is a pure function, so the
walk is side-effect-free. -/
theorem resolve_ref_spec (doc : Json) (ref : String) :
    (startsHS ref = false →
      resolve_ref doc ref = Except.error ("unsupported ref: " ++ ref)) ∧
    (∀ rest, ref.data = '#' :: '/' :: rest →
      resolve_ref doc ref =
        (splitSlash rest).foldlM (fun cur part => jindex cur (String.mk part)) doc) := by
  constructor
  · intro h
    unfold resolve_ref
    split
    · rename_i rest heq
      simp [startsHS, heq] at h
    · rfl
  · intro rest hr
    unfold resolve_ref
    split
    · rename_i rest2 heq
      rw [hr] at heq
      cases heq
      rfl
    · rename_i hno
      exact absurd hr (hno rest)

theorem resolve_ref_spec_witness :
    resolve_ref (Json.obj [("a", Json.obj [("b", Json.str "v")])]) "a/b" =
        Except.error ("unsupported ref: " ++ "a/b") ∧
      resolve_ref (Json.obj [("a", Json.obj [("b", Json.str "v")])]) "#/a/b" =
        Except.ok (Json.str "v") :=
  ⟨(resolve_ref_spec (Json.obj [("a", Json.obj [("b", Json.str "v")])]) "a/b").1 rfl,
    ((resolve_ref_spec (Json.obj [("a", Json.obj [("b", Json.str "v")])]) "#/a/b").2
        ['a', '/', 'b'] rfl).trans rfl⟩

/-- C8 (counterexample): a nested array-of-array schema yields
`item_type = "array"` (the type of the `items` schema), not `"string"` as
claimed; only the inner element type is dropped. -/
theorem schema_type_array_of_array :
    schema_type (Json.obj [])
        (Json.obj [("type", Json.str "array"),
          ("items", Json.obj [("type", Json.str "array"),
            ("items", Json.obj [("type", Json.str "integer")])])]) =
      Except.ok (Json.str "array", some (Json.str "array")) :=
  rfl

/-- C8 (amended): after one reference hop (a `$ref` key is resolved once
and the result is not hopped again), the extractor returns `type`
defaulting to `"string"` when the schema specifies none; for non-array
types the pair is `(type, none)`; for `type = "array"` it resolves the
`items` schema with one reference hop and returns its `type` as
`item_type`, defaulting to `"string"` when absent; an array-of-array
returns `item_type = "array"`, dropping the inner element type. -/
theorem schema_type_cases (doc : Json) :
    (∀ fs r, lookupField fs "$ref" = some (Json.str r) →
      schema_type doc (Json.obj fs) =
        (resolve_ref doc r >>= fun s => schema_type_core doc s)) ∧
    (∀ fs, lookupField fs "$ref" = none →
      schema_type doc (Json.obj fs) = schema_type_core doc (Json.obj fs)) ∧
    (∀ s, dictGet s "type" = Except.ok none →
      schema_type_core doc s = Except.ok (Json.str "string", none)) ∧
    (∀ s tO, dictGet s "type" = Except.ok tO →
      beqStrJ (truthyOr tO (Json.str "string")) "array" = false →
      schema_type_core doc s = Except.ok (truthyOr tO (Json.str "string"), none)) ∧
    (∀ s tO iO items itO, dictGet s "type" = Except.ok tO →
      beqStrJ (truthyOr tO (Json.str "string")) "array" = true →
      dictGet s "items" = Except.ok iO →
      hopRef doc (truthyOr iO (Json.obj [])) = Except.ok items →
      dictGet items "type" = Except.ok itO →
      schema_type_core doc s =
        Except.ok (Json.str "array", some (truthyOr itO (Json.str "string")))) ∧
    (∀ s tO iO items, dictGet s "type" = Except.ok tO →
      beqStrJ (truthyOr tO (Json.str "string")) "array" = true →
      dictGet s "items" = Except.ok iO →
      hopRef doc (truthyOr iO (Json.obj [])) = Except.ok items →
      dictGet items "type" = Except.ok (some (Json.str "array")) →
      schema_type_core doc s =
        Except.ok (Json.str "array", some (Json.str "array"))) := by
  refine ⟨?_, ?_, ?_, ?_, ?_, ?_⟩
  · intro fs r h
    simp [schema_type, hopRef, h]
  · intro fs h
    simp [schema_type, hopRef, h, exceptBind_ok]
  · intro s h
    simp [schema_type_core, h, exceptBind_ok, truthyOr, beqStrJ]
  · intro s tO h1 h2
    simp [schema_type_core, h1, exceptBind_ok, h2]
  · intro s tO iO items itO h1 h2 h3 h4 h5
    simp [schema_type_core, h1, h2, h3, h4, h5, exceptBind_ok]
  · intro s tO iO items h1 h2 h3 h4 h5
    simp [schema_type_core, h1, h2, h3, h4, h5, exceptBind_ok]
    rfl

theorem schema_type_cases_witness :
    schema_type (Json.obj [("d", Json.obj [("type", Json.str "integer")])])
        (Json.obj [("$ref", Json.str "#/d")]) =
        (resolve_ref (Json.obj [("d", Json.obj [("type", Json.str "integer")])]) "#/d" >>=
          fun s => schema_type_core (Json.obj [("d", Json.obj [("type", Json.str "integer")])]) s) ∧
      schema_type (Json.obj []) (Json.obj [("type", Json.str "integer")]) =
        schema_type_core (Json.obj []) (Json.obj [("type", Json.str "integer")]) ∧
      schema_type_core (Json.obj []) (Json.obj []) =
        Except.ok (Json.str "string", none) ∧
      schema_type_core (Json.obj []) (Json.obj [("type", Json.str "integer")]) =
        Except.ok (truthyOr (some (Json.str "integer")) (Json.str "string"), none) ∧
      schema_type_core (Json.obj [])
          (Json.obj [("type", Json.str "array"),
            ("items", Json.obj [("type", Json.str "integer")])]) =
        Except.ok (Json.str "array",
          some (truthyOr (some (Json.str "integer")) (Json.str "string"))) ∧
      schema_type_core (Json.obj [])
          (Json.obj [("type", Json.str "array"),
            ("items", Json.obj [("type", Json.str "array")])]) =
        Except.ok (Json.str "array", some (Json.str "array")) :=
  ⟨(schema_type_cases _).1 [("$ref", Json.str "#/d")] "#/d" rfl,
    (schema_type_cases (Json.obj [])).2.1 [("type", Json.str "integer")] rfl,
    (schema_type_cases (Json.obj [])).2.2.1 (Json.obj []) rfl,
    (schema_type_cases (Json.obj [])).2.2.2.1 (Json.obj [("type", Json.str "integer")])
      (some (Json.str "integer")) rfl rfl,
    (schema_type_cases (Json.obj [])).2.2.2.2.1
      (Json.obj [("type", Json.str "array"),
        ("items", Json.obj [("type", Json.str "integer")])])
      (some (Json.str "array")) (some (Json.obj [("type", Json.str "integer")]))
      (Json.obj [("type", Json.str "integer")]) (some (Json.str "integer"))
      rfl rfl rfl rfl rfl,
    (schema_type_cases (Json.obj [])).2.2.2.2.2
      (Json.obj [("type", Json.str "array"),
        ("items", Json.obj [("type", Json.str "array")])])
      (some (Json.str "array")) (some (Json.obj [("type", Json.str "array")]))
      (Json.obj [("type", Json.str "array")])
      rfl rfl rfl rfl rfl⟩

/-- C6: pagination detection on the selected response schema: no selected
schema (or a falsy one) is not paginated; a reference whose path ends in
`/Paginated` is paginated; any other reference is resolved one hop and
detection recurses; a schema with an `allOf` composition is paginated
exactly when some branch is, the branches being evaluated in declared
order with a short-circuit on the first positive; in all remaining cases
detection returns false. -/
theorem is_paginated_cases (doc : Json) (fuel : Nat) :
    (is_paginated doc (fuel + 1) none = Except.ok false) ∧
    (∀ schema, truthy schema = false →
      is_paginated doc (fuel + 1) (some schema) = Except.ok false) ∧
    (∀ schema r, truthy schema = true → keyIn schema "$ref" = Except.ok true →
      jindex schema "$ref" = Except.ok (Json.str r) →
      endsSeq ("/Paginated").data r.data = true →
      is_paginated doc (fuel + 1) (some schema) = Except.ok true) ∧
    (∀ schema r, truthy schema = true → keyIn schema "$ref" = Except.ok true →
      jindex schema "$ref" = Except.ok (Json.str r) →
      endsSeq ("/Paginated").data r.data = false →
      is_paginated doc (fuel + 1) (some schema) =
        (resolve_ref doc r >>= fun t => is_paginated doc fuel (some t))) ∧
    (∀ schema aO bs, truthy schema = true → keyIn schema "$ref" = Except.ok false →
      keyIn schema "allOf" = Except.ok true →
      dictGet schema "allOf" = Except.ok aO →
      asArr (truthyOr aO (Json.arr [])) = Except.ok bs →
      is_paginated doc (fuel + 1) (some schema) =
        anyList (fun s => is_paginated doc fuel (some s)) bs) ∧
    (∀ schema, truthy schema = true → keyIn schema "$ref" = Except.ok false →
      keyIn schema "allOf" = Except.ok false →
      is_paginated doc (fuel + 1) (some schema) = Except.ok false) ∧
    (∀ f : Json → Except String Bool, anyList f [] = Except.ok false) ∧
    (∀ (f : Json → Except String Bool) s rest, f s = Except.ok true →
      anyList f (s :: rest) = Except.ok true) ∧
    (∀ (f : Json → Except String Bool) s rest, f s = Except.ok false →
      anyList f (s :: rest) = anyList f rest) := by
  refine ⟨rfl, ?_, ?_, ?_, ?_, ?_, fun f => rfl, ?_, ?_⟩
  · intro schema ht
    simp [is_paginated, ht]
  · intro schema r ht hk hj he
    simp [is_paginated, ht, hk, hj, he, asStr, exceptBind_ok]
  · intro schema r ht hk hj he
    simp [is_paginated, ht, hk, hj, he, asStr, exceptBind_ok]
  · intro schema aO bs ht hk ha hd hb
    simp [is_paginated, ht, hk, ha, hd, hb, exceptBind_ok]
  · intro schema ht hk ha
    simp [is_paginated, ht, hk, ha, exceptBind_ok]
  · intro f s rest h
    simp [anyList, h, exceptBind_ok]
  · intro f s rest h
    simp [anyList, h, exceptBind_ok]

theorem is_paginated_cases_witness :
    is_paginated (Json.obj []) (0 + 1) none = Except.ok false ∧
      is_paginated (Json.obj []) (0 + 1) (some (Json.obj [])) = Except.ok false ∧
      is_paginated (Json.obj []) (0 + 1)
          (some (Json.obj [("$ref", Json.str "#/components/schemas/Paginated")])) =
        Except.ok true ∧
      is_paginated (Json.obj [("d", Json.obj [])]) (0 + 1)
          (some (Json.obj [("$ref", Json.str "#/d")])) =
        (resolve_ref (Json.obj [("d", Json.obj [])]) "#/d" >>=
          fun t => is_paginated (Json.obj [("d", Json.obj [])]) 0 (some t)) ∧
      is_paginated (Json.obj []) (1 + 1)
          (some (Json.obj [("allOf", Json.arr
            [Json.obj [("$ref", Json.str "#/components/schemas/Paginated")]])])) =
        anyList (fun s => is_paginated (Json.obj []) 1 (some s))
          [Json.obj [("$ref", Json.str "#/components/schemas/Paginated")]] ∧
      is_paginated (Json.obj []) (0 + 1)
          (some (Json.obj [("type", Json.str "object")])) = Except.ok false ∧
      anyList (fun s => is_paginated (Json.obj []) 1 (some s)) [] = Except.ok false ∧
      anyList (fun s => is_paginated (Json.obj []) 1 (some s))
          [Json.obj [("$ref", Json.str "#/components/schemas/Paginated")]] =
        Except.ok true ∧
      anyList (fun s => is_paginated (Json.obj []) 1 (some s))
          [Json.obj [], Json.obj [("$ref", Json.str "#/components/schemas/Paginated")]] =
        anyList (fun s => is_paginated (Json.obj []) 1 (some s))
          [Json.obj [("$ref", Json.str "#/components/schemas/Paginated")]] :=
  ⟨(is_paginated_cases (Json.obj []) 0).1,
    (is_paginated_cases (Json.obj []) 0).2.1 (Json.obj []) rfl,
    (is_paginated_cases (Json.obj []) 0).2.2.1
      (Json.obj [("$ref", Json.str "#/components/schemas/Paginated")])
      "#/components/schemas/Paginated" rfl rfl rfl rfl,
    (is_paginated_cases (Json.obj [("d", Json.obj [])]) 0).2.2.2.1
      (Json.obj [("$ref", Json.str "#/d")]) "#/d" rfl rfl rfl rfl,
    (is_paginated_cases (Json.obj []) 1).2.2.2.2.1
      (Json.obj [("allOf", Json.arr
        [Json.obj [("$ref", Json.str "#/components/schemas/Paginated")]])])
      (some (Json.arr [Json.obj [("$ref", Json.str "#/components/schemas/Paginated")]]))
      [Json.obj [("$ref", Json.str "#/components/schemas/Paginated")]]
      rfl rfl rfl rfl rfl,
    (is_paginated_cases (Json.obj []) 0).2.2.2.2.2.1
      (Json.obj [("type", Json.str "object")]) rfl rfl rfl,
    (is_paginated_cases (Json.obj []) 1).2.2.2.2.2.2.1
      (fun s => is_paginated (Json.obj []) 1 (some s)),
    (is_paginated_cases (Json.obj []) 1).2.2.2.2.2.2.2.1
      (fun s => is_paginated (Json.obj []) 1 (some s))
      (Json.obj [("$ref", Json.str "#/components/schemas/Paginated")]) [] rfl,
    (is_paginated_cases (Json.obj []) 1).2.2.2.2.2.2.2.2
      (fun s => is_paginated (Json.obj []) 1 (some s))
      (Json.obj [])
      [Json.obj [("$ref", Json.str "#/components/schemas/Paginated")]] rfl⟩

/-! ### Order lemmas for the parameter sort key -/

theorem charToNat_inj {a b : Char} (h : a.toNat = b.toNat) : a = b := by
  have hv : a.val = b.val := by
    unfold Char.toNat at h
    exact UInt32.toNat.inj h
  exact Char.ext hv

theorem charListLt_irrefl : ∀ a, charListLt a a = false := by
  intro a
  induction a with
  | nil => rfl
  | cons x xs ih =>
    simp only [charListLt]
    rw [if_neg (by omega), if_neg (by omega)]
    exact ih

theorem charListLt_asym : ∀ a b, charListLt a b = true → charListLt b a = false := by
  intro a
  induction a with
  | nil =>
    intro b h
    cases b with
    | nil => simp [charListLt] at h
    | cons y ys => rfl
  | cons x xs ih =>
    intro b h
    cases b with
    | nil => simp [charListLt] at h
    | cons y ys =>
      simp only [charListLt] at h ⊢
      by_cases h1 : x.toNat < y.toNat
      · rw [if_neg (by omega), if_pos h1]
      · by_cases h2 : y.toNat < x.toNat
        · rw [if_neg h1, if_pos h2] at h
          exact absurd h (by simp)
        · rw [if_neg h1, if_neg h2] at h
          rw [if_neg h2, if_neg h1]
          exact ih ys h

theorem charListLt_trans :
    ∀ a b c, charListLt a b = true → charListLt b c = true → charListLt a c = true := by
  intro a
  induction a with
  | nil =>
    intro b c hab hbc
    cases b with
    | nil => simp [charListLt] at hab
    | cons y ys =>
      cases c with
      | nil => simp [charListLt] at hbc
      | cons z zs => rfl
  | cons x xs ih =>
    intro b c hab hbc
    cases b with
    | nil => simp [charListLt] at hab
    | cons y ys =>
      cases c with
      | nil => simp [charListLt] at hbc
      | cons z zs =>
        simp only [charListLt] at hab hbc ⊢
        by_cases h1 : x.toNat < y.toNat
        · by_cases h2 : y.toNat < z.toNat
          · rw [if_pos (by omega)]
          · by_cases h3 : z.toNat < y.toNat
            · rw [if_neg h2, if_pos h3] at hbc
              exact absurd hbc (by simp)
            · rw [if_pos (by omega)]
        · by_cases h4 : y.toNat < x.toNat
          · rw [if_neg h1, if_pos h4] at hab
            exact absurd hab (by simp)
          · rw [if_neg h1, if_neg h4] at hab
            by_cases h2 : y.toNat < z.toNat
            · rw [if_pos (by omega)]
            · by_cases h3 : z.toNat < y.toNat
              · rw [if_neg h2, if_pos h3] at hbc
                exact absurd hbc (by simp)
              · rw [if_neg h2, if_neg h3] at hbc
                rw [if_neg (by omega), if_neg (by omega)]
                exact ih ys zs hab hbc

theorem charListLt_connex :
    ∀ a b, charListLt a b = false → charListLt b a = false → a = b := by
  intro a
  induction a with
  | nil =>
    intro b hab _
    cases b with
    | nil => rfl
    | cons y ys => simp [charListLt] at hab
  | cons x xs ih =>
    intro b hab hba
    cases b with
    | nil => simp [charListLt] at hba
    | cons y ys =>
      simp only [charListLt] at hab hba
      by_cases h1 : x.toNat < y.toNat
      · rw [if_pos h1] at hab
        exact absurd hab (by simp)
      · by_cases h2 : y.toNat < x.toNat
        · rw [if_pos h2] at hba
          exact absurd hba (by simp)
        · rw [if_neg h1, if_neg h2] at hab
          rw [if_neg h2, if_neg h1] at hba
          rw [charToNat_inj (by omega : x.toNat = y.toNat), ih ys hab hba]

theorem strLtB_irrefl (a : String) : strLtB a a = false := charListLt_irrefl a.data

theorem strLtB_asym {a b : String} (h : strLtB a b = true) : strLtB b a = false :=
  charListLt_asym a.data b.data h

theorem strLtB_trans {a b c : String} (h1 : strLtB a b = true)
    (h2 : strLtB b c = true) : strLtB a c = true :=
  charListLt_trans a.data b.data c.data h1 h2

theorem strLtB_connex {a b : String} (h1 : strLtB a b = false)
    (h2 : strLtB b a = false) : a = b := by
  have hd : a.data = b.data := charListLt_connex a.data b.data h1 h2
  cases a
  cases b
  exact congrArg String.mk hd

/-! ### Cascade-order lemmas -/

theorem cascLt_irrefl {α β : Type} (ltA : α → α → Bool) (ltB : β → β → Bool)
    (hA : ∀ a, ltA a a = false) (hB : ∀ b, ltB b b = false) :
    ∀ x, cascLt ltA ltB x x = false := by
  intro x
  simp [cascLt, hA, hB]

theorem cascLt_asym {α β : Type} (ltA : α → α → Bool) (ltB : β → β → Bool)
    (hA : ∀ a b, ltA a b = true → ltA b a = false)
    (hB : ∀ a b, ltB a b = true → ltB b a = false) :
    ∀ x y, cascLt ltA ltB x y = true → cascLt ltA ltB y x = false := by
  intro x y h
  simp only [cascLt] at h ⊢
  by_cases h1 : ltA x.1 y.1 = true
  · rw [if_neg (by simp [hA _ _ h1]), if_pos h1]
  · rw [if_neg (Bool.not_eq_true _ ▸ h1)] at h
    by_cases h2 : ltA y.1 x.1 = true
    · rw [if_pos h2] at h
      exact absurd h (by simp)
    · rw [if_neg h2] at h
      rw [if_neg h2, if_neg h1]
      exact hB _ _ h

theorem cascLt_trans {α β : Type} (ltA : α → α → Bool) (ltB : β → β → Bool)
    (hAt : ∀ a b c, ltA a b = true → ltA b c = true → ltA a c = true)
    (hAc : ∀ a b, ltA a b = false → ltA b a = false → a = b)
    (hBt : ∀ a b c, ltB a b = true → ltB b c = true → ltB a c = true) :
    ∀ x y z, cascLt ltA ltB x y = true → cascLt ltA ltB y z = true →
      cascLt ltA ltB x z = true := by
  intro x y z hxy hyz
  simp only [cascLt] at hxy hyz ⊢
  by_cases a1 : ltA x.1 y.1 = true
  · by_cases a2 : ltA y.1 z.1 = true
    · rw [if_pos (hAt _ _ _ a1 a2)]
    · by_cases a3 : ltA z.1 y.1 = true
      · rw [if_neg a2, if_pos a3] at hyz
        exact absurd hyz (by simp)
      · have he : y.1 = z.1 :=
          hAc _ _ (by simpa using a2) (by simpa using a3)
        rw [if_pos (he ▸ a1)]
  · by_cases a4 : ltA y.1 x.1 = true
    · rw [if_neg a1, if_pos a4] at hxy
      exact absurd hxy (by simp)
    · have he : x.1 = y.1 :=
        hAc _ _ (by simpa using a1) (by simpa using a4)
      rw [if_neg a1, if_neg a4] at hxy
      by_cases a2 : ltA y.1 z.1 = true
      · rw [if_pos (he ▸ a2)]
      · by_cases a3 : ltA z.1 y.1 = true
        · rw [if_neg a2, if_pos a3] at hyz
          exact absurd hyz (by simp)
        · rw [if_neg a2, if_neg a3] at hyz
          rw [if_neg (he ▸ a2), if_neg (he ▸ a3)]
          exact hBt _ _ _ hxy hyz

theorem cascLt_connex {α β : Type} (ltA : α → α → Bool) (ltB : β → β → Bool)
    (hAc : ∀ a b, ltA a b = false → ltA b a = false → a = b)
    (hBc : ∀ a b, ltB a b = false → ltB b a = false → a = b) :
    ∀ x y, cascLt ltA ltB x y = false → cascLt ltA ltB y x = false → x = y := by
  intro x y hxy hyx
  simp only [cascLt] at hxy hyx
  by_cases a1 : ltA x.1 y.1 = true
  · rw [if_pos a1] at hxy
    exact absurd hxy (by simp)
  · by_cases a2 : ltA y.1 x.1 = true
    · rw [if_pos a2] at hyx
      exact absurd hyx (by simp)
    · rw [if_neg a1, if_neg a2] at hxy
      rw [if_neg a2, if_neg a1] at hyx
      have he1 : x.1 = y.1 :=
        hAc _ _ (by simpa using a1) (by simpa using a2)
      have he2 : x.2 = y.2 := hBc _ _ hxy hyx
      exact Prod.ext he1 he2

theorem boolLtB_asym : ∀ a b : Bool, boolLtB a b = true → boolLtB b a = false := by
  decide

theorem boolLtB_trans :
    ∀ a b c : Bool, boolLtB a b = true → boolLtB b c = true → boolLtB a c = true := by
  decide

theorem boolLtB_connex :
    ∀ a b : Bool, boolLtB a b = false → boolLtB b a = false → a = b := by
  decide

theorem strLtB_connex2 :
    ∀ a b : String, strLtB a b = false → strLtB b a = false → a = b :=
  fun _ _ h1 h2 => strLtB_connex h1 h2

theorem keyLtB_asym {x y : Bool × String × String} (h : keyLtB x y = true) :
    keyLtB y x = false :=
  cascLt_asym boolLtB (cascLt strLtB strLtB) boolLtB_asym
    (cascLt_asym strLtB strLtB (fun _ _ => strLtB_asym) (fun _ _ => strLtB_asym)) x y h

theorem keyLtB_trans {x y z : Bool × String × String} (h1 : keyLtB x y = true)
    (h2 : keyLtB y z = true) : keyLtB x z = true :=
  cascLt_trans boolLtB (cascLt strLtB strLtB) boolLtB_trans boolLtB_connex
    (cascLt_trans strLtB strLtB (fun _ _ _ => strLtB_trans) strLtB_connex2
      (fun _ _ _ => strLtB_trans)) x y z h1 h2

theorem keyLtB_connex {x y : Bool × String × String} (h1 : keyLtB x y = false)
    (h2 : keyLtB y x = false) : x = y :=
  cascLt_connex boolLtB (cascLt strLtB strLtB) boolLtB_connex
    (cascLt_connex strLtB strLtB strLtB_connex2 strLtB_connex2) x y h1 h2

theorem keyLtB_irrefl (x : Bool × String × String) : keyLtB x x = false :=
  cascLt_irrefl boolLtB (cascLt strLtB strLtB) (fun a => by cases a <;> rfl)
    (cascLt_irrefl strLtB strLtB strLtB_irrefl strLtB_irrefl) x

theorem keyLtB_ne {x y : Bool × String × String} (h : keyLtB x y = true) : x ≠ y := by
  intro he
  rw [he, keyLtB_irrefl] at h
  exact absurd h (by simp)

theorem pLe_total (p q : Param) : pLe p q = true ∨ pLe q p = true := by
  unfold pLe
  by_cases h : keyLtB (pkey q) (pkey p) = true
  · right
    simp [keyLtB_asym h]
  · left
    simp [Bool.not_eq_true _ ▸ h]

theorem pLe_trans {p q r : Param} (h1 : pLe p q = true) (h2 : pLe q r = true) :
    pLe p r = true := by
  simp only [pLe, Bool.not_eq_true'] at h1 h2 ⊢
  cases hc : keyLtB (pkey r) (pkey p) with
  | false => rfl
  | true =>
    by_cases hqr : keyLtB (pkey q) (pkey r) = true
    · rw [keyLtB_trans hqr hc] at h1
      exact absurd h1 (by simp)
    · have he : pkey q = pkey r :=
        keyLtB_connex (by simpa using hqr) h2
      rw [← he] at hc
      rw [hc] at h1
      exact absurd h1 (by simp)

theorem pInsert_perm (x : Param) (l : List Param) :
    List.Perm (pInsert x l) (x :: l) := by
  induction l with
  | nil => exact List.Perm.refl [x]
  | cons y t ih =>
    by_cases h : pLe x y = true
    · simp [pInsert, h]
    · simp only [pInsert, if_neg h]
      exact (ih.cons y).trans (List.Perm.swap x y t)

theorem pSort_perm (l : List Param) : List.Perm (pSort l) l := by
  induction l with
  | nil => exact List.Perm.refl []
  | cons x t ih => exact (pInsert_perm x (pSort t)).trans (ih.cons x)

theorem pInsert_pairwise (x : Param) :
    ∀ l, List.Pairwise (fun p q => pLe p q = true) l →
      List.Pairwise (fun p q => pLe p q = true) (pInsert x l) := by
  intro l
  induction l with
  | nil => intro _; simp [pInsert]
  | cons y t ih =>
    intro h
    rcases List.pairwise_cons.mp h with ⟨hy, ht⟩
    by_cases hc : pLe x y = true
    · simp only [pInsert, if_pos hc]
      refine List.pairwise_cons.mpr ⟨?_, h⟩
      intro z hz
      rcases List.mem_cons.mp hz with rfl | hz2
      · exact hc
      · exact pLe_trans hc (hy z hz2)
    · simp only [pInsert, if_neg hc]
      refine List.pairwise_cons.mpr ⟨?_, ih ht⟩
      intro z hz
      have hyx : pLe y x = true := (pLe_total x y).resolve_left hc
      have hz2 := (pInsert_perm x t).mem_iff.mp hz
      rcases List.mem_cons.mp hz2 with rfl | hz3
      · exact hyx
      · exact hy z hz3

theorem pSort_pairwise (l : List Param) :
    List.Pairwise (fun p q => pLe p q = true) (pSort l) := by
  induction l with
  | nil => exact List.Pairwise.nil
  | cons x t ih => exact pInsert_pairwise x (pSort t) ih

theorem filter_pInsert (k : Bool × String × String) (x : Param) :
    ∀ l, (pInsert x l).filter (fun p => decide (pkey p = k)) =
      if pkey x = k then x :: l.filter (fun p => decide (pkey p = k))
      else l.filter (fun p => decide (pkey p = k)) := by
  intro l
  induction l with
  | nil => by_cases hk : pkey x = k <;> simp [pInsert, List.filter, hk]
  | cons y t ih =>
    by_cases hc : pLe x y = true
    · simp only [pInsert, if_pos hc]
      by_cases hk : pkey x = k <;> simp [List.filter_cons, hk]
    · simp only [pInsert, if_neg hc]
      have hlt : keyLtB (pkey y) (pkey x) = true := by
        have hff : pLe x y = false := by simpa using hc
        simpa [pLe, Bool.not_eq_true'] using hff
      have hne : pkey y ≠ pkey x := keyLtB_ne hlt
      by_cases hk : pkey x = k
      · have hyk : ¬ pkey y = k := by rw [← hk]; exact hne
        simp [List.filter_cons, hyk, ih, hk]
      · simp [List.filter_cons, ih, hk]

theorem pSort_filter (l : List Param) (k : Bool × String × String) :
    (pSort l).filter (fun p => decide (pkey p = k)) =
      l.filter (fun p => decide (pkey p = k)) := by
  induction l with
  | nil => rfl
  | cons x t ih =>
    show (pInsert x (pSort t)).filter _ = _
    rw [filter_pInsert]
    by_cases hk : pkey x = k <;> simp [hk, ih, List.filter_cons]

/-- C7: for every operation, the emitted `params` list is obtained by
concatenating the path-level parameter list and then the operation-level
parameter list, resolving one reference hop per entry where needed and
parsing each entry — with no deduplication, so the output is a permutation
of the parsed concatenation and an entry present in both lists appears
twice — and then stably sorting: the result is sorted by the key
(path-location first, then location, then name) and, for each key value,
preserves the relative order of equal-key entries of the concatenation. -/
theorem build_params_spec (doc pathItem op : Json) (ps : List Param) :
    build_params doc pathItem op = Except.ok ps →
    ∃ aO a bO b parsed,
      dictGet pathItem "parameters" = Except.ok aO ∧
      asArr (truthyOr aO (Json.arr [])) = Except.ok a ∧
      dictGet op "parameters" = Except.ok bO ∧
      asArr (truthyOr bO (Json.arr [])) = Except.ok b ∧
      (a ++ b).mapM (resolveParseParam doc) = Except.ok parsed ∧
      ps = pSort parsed ∧
      List.Perm ps parsed ∧
      List.Pairwise (fun p q => pLe p q = true) ps ∧
      (∀ k, ps.filter (fun p => decide (pkey p = k)) =
        parsed.filter (fun p => decide (pkey p = k))) := by
  intro h
  simp only [build_params] at h
  rcases exceptBind_eq_ok.mp h with ⟨aO, h1, h⟩
  rcases exceptBind_eq_ok.mp h with ⟨a, h2, h⟩
  rcases exceptBind_eq_ok.mp h with ⟨bO, h3, h⟩
  rcases exceptBind_eq_ok.mp h with ⟨b, h4, h⟩
  rcases exceptBind_eq_ok.mp h with ⟨parsed, h5, h⟩
  injection h with h6
  subst h6
  exact ⟨aO, a, bO, b, parsed, h1, h2, h3, h4, h5, rfl, pSort_perm parsed,
    pSort_pairwise parsed, fun k => pSort_filter parsed k⟩

theorem build_params_spec_witness :
    ∃ aO a bO b parsed,
      dictGet (Json.obj [("parameters", Json.arr
          [Json.obj [("name", Json.str "page_size"), ("in", Json.str "query")]])])
        "parameters" = Except.ok aO ∧
      asArr (truthyOr aO (Json.arr [])) = Except.ok a ∧
      dictGet (Json.obj [("parameters", Json.arr
          [Json.obj [("name", Json.str "page_size"), ("in", Json.str "query")]])])
        "parameters" = Except.ok bO ∧
      asArr (truthyOr bO (Json.arr [])) = Except.ok b ∧
      (a ++ b).mapM (resolveParseParam (Json.obj [])) = Except.ok parsed ∧
      [{ name := "page_size", flag := "page-size", inLoc := "query",
         required := false, style := Json.null, explode := Json.null,
         schema_type := Json.str "string", items_type := none },
       { name := "page_size", flag := "page-size", inLoc := "query",
         required := false, style := Json.null, explode := Json.null,
         schema_type := Json.str "string", items_type := none }] =
        pSort parsed ∧
      List.Perm
        [{ name := "page_size", flag := "page-size", inLoc := "query",
           required := false, style := Json.null, explode := Json.null,
           schema_type := Json.str "string", items_type := none },
         { name := "page_size", flag := "page-size", inLoc := "query",
           required := false, style := Json.null, explode := Json.null,
           schema_type := Json.str "string", items_type := none }] parsed ∧
      List.Pairwise (fun p q => pLe p q = true)
        [{ name := "page_size", flag := "page-size", inLoc := "query",
           required := false, style := Json.null, explode := Json.null,
           schema_type := Json.str "string", items_type := none },
         { name := "page_size", flag := "page-size", inLoc := "query",
           required := false, style := Json.null, explode := Json.null,
           schema_type := Json.str "string", items_type := none }] ∧
      (∀ k,
        List.filter (fun p => decide (pkey p = k))
          [{ name := "page_size", flag := "page-size", inLoc := "query",
             required := false, style := Json.null, explode := Json.null,
             schema_type := Json.str "string", items_type := none },
           { name := "page_size", flag := "page-size", inLoc := "query",
             required := false, style := Json.null, explode := Json.null,
             schema_type := Json.str "string", items_type := none }] =
          parsed.filter (fun p => decide (pkey p = k))) :=
  build_params_spec (Json.obj [])
    (Json.obj [("parameters", Json.arr
      [Json.obj [("name", Json.str "page_size"), ("in", Json.str "query")]])])
    (Json.obj [("parameters", Json.arr
      [Json.obj [("name", Json.str "page_size"), ("in", Json.str "query")]])])
    [{ name := "page_size", flag := "page-size", inLoc := "query",
       required := false, style := Json.null, explode := Json.null,
       schema_type := Json.str "string", items_type := none },
     { name := "page_size", flag := "page-size", inLoc := "query",
       required := false, style := Json.null, explode := Json.null,
       schema_type := Json.str "string", items_type := none }] rfl

/-! ### `to_kebab` character lemmas -/

theorem toNat_ofNat_small {n : Nat} (h : n < 55296) : (Char.ofNat n).toNat = n := by
  have hv : n.isValidChar := Or.inl h
  simp [Char.ofNat, hv]
  rfl

theorem isUpperA_bounds {c : Char} (h : isUpperA c = true) :
    65 ≤ c.toNat ∧ c.toNat ≤ 90 := by
  simpa [isUpperA, Bool.and_eq_true, decide_eq_true_iff] using h

theorem lowerChar_toNat_of_upper {c : Char} (h : isUpperA c = true) :
    (lowerChar c).toNat = c.toNat + 32 := by
  have hb := isUpperA_bounds h
  simp only [lowerChar, if_pos h]
  exact toNat_ofNat_small (by omega)

theorem isUpperA_lowerChar (c : Char) : isUpperA (lowerChar c) = false := by
  by_cases h : isUpperA c = true
  · have hb := isUpperA_bounds h
    have hX := lowerChar_toNat_of_upper h
    simp [isUpperA, hX]
    try omega
  · have hf : isUpperA c = false := by simpa using h
    simp only [lowerChar, hf, Bool.false_eq_true, if_false]

theorem lowerChar_eq_self {c : Char} (h : isUpperA c = false) : lowerChar c = c := by
  simp [lowerChar, h]

theorem lowerChar_dash_iff (c : Char) : lowerChar c = '-' ↔ c = '-' := by
  by_cases h : isUpperA c = true
  · have hb := isUpperA_bounds h
    have hX := lowerChar_toNat_of_upper h
    constructor
    · intro he
      rw [he] at hX
      have h45 : ('-').toNat = 45 := rfl
      omega
    · intro he
      rw [he] at h
      exact absurd h (by decide)
  · rw [lowerChar_eq_self (by simpa using h)]

theorem lowerChar_underscore_iff (c : Char) : lowerChar c = '_' ↔ c = '_' := by
  by_cases h : isUpperA c = true
  · have hb := isUpperA_bounds h
    have hX := lowerChar_toNat_of_upper h
    constructor
    · intro he
      rw [he] at hX
      have h95 : ('_').toNat = 95 := rfl
      omega
    · intro he
      rw [he] at h
      exact absurd h (by decide)
  · rw [lowerChar_eq_self (by simpa using h)]

theorem lowerChar_beq_dash (c : Char) : (lowerChar c == '-') = (c == '-') := by
  by_cases h : c = '-'
  · subst h
    rfl
  · have h2 : ¬ lowerChar c = '-' := fun e => h ((lowerChar_dash_iff c).mp e)
    simp [h, h2]

/-! ### Scanner membership and identity lemmas -/

theorem mem_replaceUnd {l : List Char} {c : Char} (h : c ∈ replaceUnd l) :
    c ∈ l ∨ c = '-' := by
  rcases List.mem_map.mp h with ⟨d, hd, he⟩
  by_cases hu : d = '_'
  · right
    simp [hu] at he
    exact he.symm
  · left
    rw [if_neg (by simpa using hu)] at he
    exact he ▸ hd

theorem mem_sub2 : ∀ l, ∀ c ∈ sub2 l, c ∈ l ∨ c = '-' := by
  intro l
  induction l using sub2.induct with
  | case1 =>
    intro c h
    simp [sub2] at h
  | case2 c0 =>
    intro c h
    simp [sub2] at h
    left
    simp [h]
  | case3 c0 c1 t hcond ih =>
    intro c h
    rw [sub2, if_pos hcond] at h
    rcases List.mem_append.mp h with h1 | h2
    · rcases List.mem_cons.mp h1 with rfl | h1
      · left; exact List.mem_cons_self _ _
      · rcases List.mem_cons.mp h1 with rfl | h1
        · right; rfl
        · rcases List.mem_cons.mp h1 with rfl | h1
          · left
            exact List.mem_cons_of_mem _ (List.mem_cons_self _ _)
          · left
            exact List.mem_cons_of_mem _ (List.mem_cons_of_mem _
              ((List.takeWhile_prefix _).sublist.subset h1))
    · rcases ih c h2 with h3 | h3
      · left
        exact List.mem_cons_of_mem _ (List.mem_cons_of_mem _
          ((List.dropWhile_suffix _).sublist.subset h3))
      · right; exact h3
  | case4 c0 c1 t hcond ih =>
    intro c h
    rw [sub2, if_neg (by simpa using hcond)] at h
    rcases List.mem_cons.mp h with rfl | h1
    · left; exact List.mem_cons_self _ _
    · rcases ih c h1 with h3 | h3
      · left; exact List.mem_cons_of_mem _ h3
      · right; exact h3

theorem mem_sub3 : ∀ l, ∀ c ∈ sub3 l, c ∈ l ∨ c = '-' := by
  intro l
  induction l using sub3.induct with
  | case1 =>
    intro c h
    simp [sub3] at h
  | case2 c0 =>
    intro c h
    simp [sub3] at h
    left
    simp [h]
  | case3 c0 c1 t hcond ih =>
    intro c h
    rw [sub3, if_pos hcond] at h
    rcases List.mem_cons.mp h with rfl | h1
    · left; exact List.mem_cons_self _ _
    · rcases List.mem_cons.mp h1 with rfl | h1
      · right; rfl
      · rcases List.mem_cons.mp h1 with rfl | h1
        · left; exact List.mem_cons_of_mem _ (List.mem_cons_self _ _)
        · rcases ih c h1 with h3 | h3
          · left
            exact List.mem_cons_of_mem _ (List.mem_cons_of_mem _ h3)
          · right; exact h3
  | case4 c0 c1 t hcond ih =>
    intro c h
    rw [sub3, if_neg (by simpa using hcond)] at h
    rcases List.mem_cons.mp h with rfl | h1
    · left; exact List.mem_cons_self _ _
    · rcases ih c h1 with h3 | h3
      · left; exact List.mem_cons_of_mem _ h3
      · right; exact h3

theorem mem_collapseDashes : ∀ l, ∀ c ∈ collapseDashes l, c ∈ l ∨ c = '-' := by
  intro l
  induction l using collapseDashes.induct with
  | case1 =>
    intro c h
    simp [collapseDashes] at h
  | case2 c0 t hc ih =>
    intro c h
    rw [collapseDashes, if_pos hc] at h
    rcases List.mem_cons.mp h with rfl | h1
    · right; rfl
    · rcases ih c h1 with h3 | h3
      · left
        exact List.mem_cons_of_mem _ ((List.dropWhile_suffix _).sublist.subset h3)
      · right; exact h3
  | case3 c0 t hc ih =>
    intro c h
    rw [collapseDashes, if_neg hc] at h
    rcases List.mem_cons.mp h with rfl | h1
    · left; exact List.mem_cons_self _ _
    · rcases ih c h1 with h3 | h3
      · left; exact List.mem_cons_of_mem _ h3
      · right; exact h3

theorem mem_dropTrailingDashes : ∀ l, ∀ c ∈ dropTrailingDashes l, c ∈ l := by
  intro l
  induction l with
  | nil => intro c h; simp [dropTrailingDashes] at h
  | cons x t ih =>
    intro c h
    rw [dropTrailingDashes] at h
    rcases hr : dropTrailingDashes t with _ | ⟨b, r2⟩
    · rw [hr] at h
      by_cases hx : x = '-'
      · simp [hx] at h
      · simp [hx] at h
        simp [h]
    · rw [hr] at h
      rcases List.mem_cons.mp h with rfl | h1
      · exact List.mem_cons_self _ _
      · exact List.mem_cons_of_mem _ (ih c (hr ▸ h1))

theorem mem_stripDashes {l : List Char} {c : Char} (h : c ∈ stripDashes l) : c ∈ l :=
  (List.dropWhile_suffix _).sublist.subset (mem_dropTrailingDashes _ c h)

theorem noDouble_tail {a : Char} {t : List Char} (h : noDouble (a :: t) = true) :
    noDouble t = true := by
  cases t with
  | nil => rfl
  | cons b t2 =>
    rw [noDouble, Bool.and_eq_true] at h
    exact h.2

theorem replaceUnd_id {l : List Char} (h : noUnder l = true) : replaceUnd l = l := by
  induction l with
  | nil => rfl
  | cons c t ih =>
    rw [noUnder, List.all_cons, Bool.and_eq_true] at h
    rw [replaceUnd, List.map_cons]
    have hc : (c == '_') = false := by simpa using h.1
    rw [if_neg (by simp [hc])]
    exact congrArg _ (ih h.2)

theorem sub2_id : ∀ l, noUpper l = true → sub2 l = l := by
  intro l
  induction l using sub2.induct with
  | case1 => intro _; simp [sub2]
  | case2 c => intro _; simp [sub2]
  | case3 c0 c1 t hcond ih =>
    intro h
    rw [noUpper, List.all_cons, List.all_cons] at h
    rw [Bool.and_eq_true, Bool.and_eq_true] at h
    rw [Bool.and_eq_true, Bool.and_eq_true] at hcond
    have hfalse : isUpperA c1 = false := by simpa using h.2.1
    rw [hfalse] at hcond
    exact absurd hcond.1.2 (by simp)
  | case4 c0 c1 t hcond ih =>
    intro h
    rw [noUpper, List.all_cons, Bool.and_eq_true] at h
    rw [sub2, if_neg (by simpa using hcond)]
    exact congrArg _ (ih h.2)

theorem sub3_id : ∀ l, noUpper l = true → sub3 l = l := by
  intro l
  induction l using sub3.induct with
  | case1 => intro _; simp [sub3]
  | case2 c => intro _; simp [sub3]
  | case3 c0 c1 t hcond ih =>
    intro h
    rw [noUpper, List.all_cons, List.all_cons] at h
    rw [Bool.and_eq_true, Bool.and_eq_true] at h
    rw [Bool.and_eq_true] at hcond
    have hfalse : isUpperA c1 = false := by simpa using h.2.1
    rw [hfalse] at hcond
    exact absurd hcond.2 (by simp)
  | case4 c0 c1 t hcond ih =>
    intro h
    rw [noUpper, List.all_cons, Bool.and_eq_true] at h
    rw [sub3, if_neg (by simpa using hcond)]
    exact congrArg _ (ih h.2)

theorem dropWhileDash_id {l : List Char} (h : headNotDash l = true) :
    l.dropWhile (fun d => d == '-') = l := by
  cases l with
  | nil => rfl
  | cons c t =>
    rw [headNotDash] at h
    rw [List.dropWhile_cons, if_neg (by simp_all)]

theorem collapseDashes_id : ∀ l, noDouble l = true → collapseDashes l = l := by
  intro l
  induction l using collapseDashes.induct with
  | case1 => intro _; simp [collapseDashes]
  | case2 c t hc ih =>
    intro h
    have hc2 : c = '-' := by simpa using hc
    have hhead : headNotDash t = true := by
      cases t with
      | nil => rfl
      | cons b t2 =>
        subst hc2
        rw [noDouble, Bool.and_eq_true] at h
        have hb : ¬ b = '-' := by simpa using h.1
        rw [headNotDash]
        simpa using hb
    have hdw : t.dropWhile (fun d => d == '-') = t := dropWhileDash_id hhead
    rw [collapseDashes, if_pos hc, hdw]
    rw [hdw] at ih
    rw [ih (noDouble_tail h), hc2]
  | case3 c t hc ih =>
    intro h
    rw [collapseDashes, if_neg hc]
    exact congrArg _ (ih (noDouble_tail h))

theorem dropTrailingDashes_id : ∀ l, lastNotDash l = true → dropTrailingDashes l = l := by
  intro l
  induction l with
  | nil => intro _; rfl
  | cons c t ih =>
    intro h
    cases t with
    | nil =>
      rw [lastNotDash] at h
      rw [dropTrailingDashes, dropTrailingDashes, if_neg (by simpa using h)]
    | cons b t2 =>
      rw [lastNotDash] at h
      have h2 := ih h
      rw [dropTrailingDashes, h2]
      intro hx
      exact absurd hx (by simp)

theorem lowerList_id {l : List Char} (h : noUpper l = true) : lowerList l = l := by
  induction l with
  | nil => rfl
  | cons c t ih =>
    rw [noUpper, List.all_cons, Bool.and_eq_true] at h
    rw [lowerList, List.map_cons, lowerChar_eq_self (by simpa using h.1)]
    exact congrArg _ (ih h.2)

/-! ### Output-shape lemmas for the `to_kebab` pipeline -/

theorem noUnder_replaceUnd (l : List Char) : noUnder (replaceUnd l) = true := by
  rw [noUnder, List.all_eq_true]
  intro c hc
  rcases List.mem_map.mp hc with ⟨d, _, he⟩
  by_cases hu : d = '_'
  · simp [hu] at he
    simp [← he]
  · rw [if_neg (by simpa using hu)] at he
    subst he
    simpa using hu

theorem noUnder_of_mem {g : List Char → List Char}
    (hmem : ∀ l, ∀ c ∈ g l, c ∈ l ∨ c = '-')
    {l : List Char} (h : noUnder l = true) : noUnder (g l) = true := by
  rw [noUnder, List.all_eq_true]
  intro c hc
  rw [noUnder, List.all_eq_true] at h
  rcases hmem l c hc with h1 | h1
  · exact h c h1
  · simp [h1]

theorem noUnder_lowerList {l : List Char} (h : noUnder l = true) :
    noUnder (lowerList l) = true := by
  rw [noUnder, List.all_eq_true]
  intro c hc
  rw [noUnder, List.all_eq_true] at h
  rcases List.mem_map.mp hc with ⟨d, hd, he⟩
  have hdu : ¬ d = '_' := by simpa using h d hd
  have : ¬ c = '_' := fun e => hdu ((lowerChar_underscore_iff d).mp (he.trans e))
  simpa using this

theorem noUnder_to_kebab (l : List Char) : noUnder (to_kebab l) = true := by
  rw [to_kebab]
  refine noUnder_lowerList ?_
  have h1 := noUnder_replaceUnd l
  have h2 := noUnder_of_mem mem_sub2 h1
  have h3 := noUnder_of_mem mem_sub3 h2
  have h4 := noUnder_of_mem mem_collapseDashes h3
  exact noUnder_of_mem (fun l2 c hc => Or.inl (mem_stripDashes hc)) h4

theorem noUpper_lowerList (l : List Char) : noUpper (lowerList l) = true := by
  rw [noUpper, List.all_eq_true]
  intro c hc
  rcases List.mem_map.mp hc with ⟨d, _, he⟩
  subst he
  simp [isUpperA_lowerChar]

theorem noUpper_to_kebab (l : List Char) : noUpper (to_kebab l) = true :=
  noUpper_lowerList _

theorem headNotDash_dropWhileDash (l : List Char) :
    headNotDash (l.dropWhile (fun d => d == '-')) = true := by
  induction l with
  | nil => rfl
  | cons c t ih =>
    by_cases hc : (c == '-') = true
    · rw [List.dropWhile_cons, if_pos (by simpa using hc)]
      exact ih
    · rw [List.dropWhile_cons, if_neg (by simpa using hc)]
      rw [headNotDash]
      simpa using hc

theorem headNotDash_collapse {l : List Char} (h : headNotDash l = true) :
    headNotDash (collapseDashes l) = true := by
  cases l with
  | nil => simp [collapseDashes, headNotDash]
  | cons c t =>
    rw [headNotDash] at h
    rw [collapseDashes, if_neg (by simpa using h)]
    rw [headNotDash]
    exact h

theorem noDouble_collapse : ∀ l, noDouble (collapseDashes l) = true := by
  intro l
  induction l using collapseDashes.induct with
  | case1 => simp [collapseDashes, noDouble]
  | case2 c t hc ih =>
    rw [collapseDashes, if_pos hc]
    have hhead : headNotDash (collapseDashes (t.dropWhile (fun d => d == '-'))) = true :=
      headNotDash_collapse (headNotDash_dropWhileDash t)
    rcases hr : collapseDashes (t.dropWhile (fun d => d == '-')) with _ | ⟨b, r2⟩
    · rfl
    · rw [hr] at hhead ih
      rw [noDouble, Bool.and_eq_true]
      refine ⟨?_, ih⟩
      rw [headNotDash] at hhead
      simp at hhead
      simp [hhead]
  | case3 c t hc ih =>
    rcases hr : collapseDashes t with _ | ⟨b, r2⟩
    · rw [collapseDashes, if_neg hc, hr]
      rfl
    · rw [collapseDashes, if_neg hc, hr]
      rw [hr] at ih
      rw [noDouble, Bool.and_eq_true]
      refine ⟨?_, ih⟩
      simp at hc
      simp [hc]

theorem dropTrailingDashes_head :
    ∀ l b r2, dropTrailingDashes l = b :: r2 → ∃ t2, l = b :: t2 := by
  intro l
  induction l with
  | nil => intro b r2 h; simp [dropTrailingDashes] at h
  | cons c t ih =>
    intro b r2 h
    rw [dropTrailingDashes] at h
    rcases hr : dropTrailingDashes t with _ | ⟨b2, r3⟩
    · rw [hr] at h
      by_cases hx : c = '-'
      · simp [hx] at h
      · simp [hx] at h
        exact ⟨t, by rw [h.1]⟩
    · rw [hr] at h
      rcases List.cons.injEq .. ▸ h with ⟨rfl, _⟩
      exact ⟨t, rfl⟩

theorem noDouble_dropWhile {l : List Char} {p : Char → Bool}
    (h : noDouble l = true) : noDouble (l.dropWhile p) = true := by
  induction l with
  | nil => exact h
  | cons c t ih =>
    by_cases hc : p c = true
    · rw [List.dropWhile_cons, if_pos hc]
      exact ih (noDouble_tail h)
    · rw [List.dropWhile_cons, if_neg hc]
      exact h

theorem noDouble_dropTrailing : ∀ l, noDouble l = true →
    noDouble (dropTrailingDashes l) = true := by
  intro l
  induction l with
  | nil => intro h; exact h
  | cons c t ih =>
    intro h
    rw [dropTrailingDashes]
    rcases hr : dropTrailingDashes t with _ | ⟨b, r2⟩
    · by_cases hx : c = '-'
      · simp [hx]
        rfl
      · simp [hx]
        rfl
    · rcases dropTrailingDashes_head t b r2 hr with ⟨t2, ht⟩
      have hrec := ih (noDouble_tail h)
      rw [hr] at hrec
      rw [noDouble, Bool.and_eq_true]
      refine ⟨?_, hrec⟩
      rw [ht, noDouble, Bool.and_eq_true] at h
      exact h.1

theorem noDouble_lowerList : ∀ l, noDouble l = true → noDouble (lowerList l) = true := by
  intro l
  induction l with
  | nil => intro h; exact h
  | cons a t ih =>
    intro h
    cases t with
    | nil => rfl
    | cons b t2 =>
      rw [noDouble, Bool.and_eq_true] at h
      have hrec := ih h.2
      rw [lowerList, List.map_cons, List.map_cons]
      rw [lowerList, List.map_cons] at hrec
      rw [noDouble, Bool.and_eq_true]
      refine ⟨?_, hrec⟩
      rw [lowerChar_beq_dash, lowerChar_beq_dash]
      exact h.1

theorem lastNotDash_dropTrailing : ∀ l, lastNotDash (dropTrailingDashes l) = true := by
  intro l
  induction l with
  | nil => rfl
  | cons c t ih =>
    rw [dropTrailingDashes]
    rcases hr : dropTrailingDashes t with _ | ⟨b, r2⟩
    · by_cases hx : c = '-'
      · simp [hx]
        rfl
      · simp [hx]
        rw [lastNotDash]
        simpa using hx
    · rw [hr] at ih
      exact ih

theorem headNotDash_dropTrailing {l : List Char} (h : headNotDash l = true) :
    headNotDash (dropTrailingDashes l) = true := by
  cases l with
  | nil => rfl
  | cons c t =>
    rw [dropTrailingDashes]
    rcases hr : dropTrailingDashes t with _ | ⟨b, r2⟩
    · rw [headNotDash] at h
      by_cases hx : c = '-'
      · simp [hx] at h
      · simp [hx]
        rw [headNotDash]
        simpa using hx
    · rw [headNotDash] at h
      rw [headNotDash]
      exact h

theorem headNotDash_lowerList {l : List Char} (h : headNotDash l = true) :
    headNotDash (lowerList l) = true := by
  cases l with
  | nil => rfl
  | cons c t =>
    rw [headNotDash] at h
    rw [lowerList, List.map_cons, headNotDash]
    have : ¬ c = '-' := by simpa using h
    simpa using fun e => this ((lowerChar_dash_iff c).mp e)

theorem lastNotDash_lowerList : ∀ l, lastNotDash l = true →
    lastNotDash (lowerList l) = true := by
  intro l
  induction l with
  | nil => intro h; exact h
  | cons c t ih =>
    intro h
    cases t with
    | nil =>
      rw [lastNotDash] at h
      rw [lowerList, List.map_cons, List.map_nil, lastNotDash]
      have : ¬ c = '-' := by simpa using h
      simpa using fun e => this ((lowerChar_dash_iff c).mp e)
    | cons b t2 =>
      have h2 : lastNotDash (b :: t2) = true := h
      have hrec := ih h2
      show lastNotDash (lowerChar b :: List.map lowerChar t2) = true
      rw [lowerList, List.map_cons] at hrec
      exact hrec

/-- C10: the kebab-case normalizing transform is idempotent — applying
`to_kebab` to its own output returns that output unchanged — because its
output is always lower-case (no ASCII upper-case letter survives),
contains no underscore, has no repeated hyphens, and has no leading or
trailing hyphen. -/
theorem to_kebab_idem (l : List Char) :
    to_kebab (to_kebab l) = to_kebab l ∧
      noUpper (to_kebab l) = true ∧
      noUnder (to_kebab l) = true ∧
      noDouble (to_kebab l) = true ∧
      headNotDash (to_kebab l) = true ∧
      lastNotDash (to_kebab l) = true := by
  have hU : noUpper (to_kebab l) = true := noUpper_to_kebab l
  have hW : noUnder (to_kebab l) = true := noUnder_to_kebab l
  have hD : noDouble (to_kebab l) = true := by
    rw [to_kebab]
    exact noDouble_lowerList _
      (noDouble_dropTrailing _ (noDouble_dropWhile (noDouble_collapse _)))
  have hH : headNotDash (to_kebab l) = true := by
    rw [to_kebab]
    exact headNotDash_lowerList (headNotDash_dropTrailing (headNotDash_dropWhileDash _))
  have hL : lastNotDash (to_kebab l) = true := by
    rw [to_kebab]
    exact lastNotDash_lowerList _ (lastNotDash_dropTrailing _)
  refine ⟨?_, hU, hW, hD, hH, hL⟩
  conv_lhs => rw [to_kebab]
  rw [replaceUnd_id hW, sub2_id _ hU, sub3_id _ hU, collapseDashes_id _ hD]
  rw [stripDashes, dropWhileDash_id hH, dropTrailingDashes_id _ hL, lowerList_id hU]
